import Mathlib

/-!
Verification of the DOSE (digital organism simulation environment) API module
(dose/dose.py) against its natural-language specification.

The development shallowly embeds the module:
* Python dictionary values appearing in agent status dictionaries become the
  inductive type PyVal (strings, numbers, booleans); Python numbers (int and
  float) are modelled as exact rationals, and the numeric literal 0.01 of the
  source as the rational 1/100.
* fallible Python code (KeyError on a missing status key, AttributeError on
  calling upper on a non-string, ValueError from float coercion, and
  NotImplementedError from an unoverridden hook, which the specification names
  UnimplementedCapability) becomes Except PyError.
* the agent filter library (filter_deme, filter_gender, filter_age,
  filter_location, filter_vitality, filter_status) is translated function by
  function, preserving the iteration order and the evaluation order of the
  fallible subexpressions of each loop body.
-/

namespace Dose

/-- Errors of the embedded fragment. keyError models Python KeyError (missing
status key), attributeError models AttributeError (upper called on a
non-string), conversionError models the ValueError raised by float() on a
non-numeric string (named ConversionError by the specification), and
unimplementedCapability models the NotImplementedError raised by every
unoverridden dose_functions method (named UnimplementedCapability by the
specification). -/
inductive PyError where
  | keyError
  | attributeError
  | conversionError
  | unimplementedCapability
deriving DecidableEq, Repr

/-- A Python value as stored in an agent status dictionary: a string, a number
(int and float collapsed into an exact rational), or a boolean. -/
inductive PyVal where
  | str : String → PyVal
  | num : ℚ → PyVal
  | boolean : Bool → PyVal
deriving DecidableEq, Repr

/-- An agent (genetic.Organism): the filter library touches only its status
dictionary, modelled as an association list from key to value. -/
structure Agent where
  status : List (String × PyVal)
deriving DecidableEq, Repr

/-- Python dictionary read individual.status[k]: the first binding of k, or
KeyError when the key is absent. -/
def Agent.getStatus (a : Agent) (k : String) : Except PyError PyVal :=
  match a.status.lookup k with
  | some v => Except.ok v
  | none => Except.error PyError.keyError

/-- Model of the Python str.upper() method (ASCII case mapping, the range the
simulation data uses). -/
def pyUpper (s : String) : String :=
  ⟨s.data.map Char.toUpper⟩

/-- Python value.upper(): defined on strings, AttributeError otherwise. -/
def PyVal.upper : PyVal → Except PyError String
  | PyVal.str s => Except.ok (pyUpper s)
  | _ => Except.error PyError.attributeError

/-- Numeric value of a base-10 digit string. -/
def digitsVal (l : List Char) : Nat :=
  l.foldl (fun acc c => 10 * acc + (c.toNat - 48)) 0

/-- Model of Python float(s) on plain decimal strings: an optional sign, an
integer part and an optional fractional part, at least one of the two parts
nonempty. Exotic float syntax (exponents, inf, nan, underscores, surrounding
whitespace) is outside the value domain this module is exercised on and is
treated as failing. -/
def parseFloat? (s : String) : Option ℚ :=
  let core := fun (cs : List Char) (sign : ℚ) =>
    match cs.splitOn '.' with
    | [intPart] =>
      if !intPart.isEmpty && intPart.all Char.isDigit then
        some (sign * (digitsVal intPart : ℚ))
      else none
    | [intPart, fracPart] =>
      if (!intPart.isEmpty || !fracPart.isEmpty) && intPart.all Char.isDigit
          && fracPart.all Char.isDigit then
        some (sign * ((digitsVal intPart : ℚ)
          + (digitsVal fracPart : ℚ) / (10 : ℚ) ^ fracPart.length))
      else none
    | _ => none
  match s.data with
  | '-' :: rest => core rest (-1)
  | '+' :: rest => core rest 1
  | cs => core cs 1

/-- Model of the Python float(v) coercion: numbers pass through, booleans map
to 0 and 1, decimal strings are parsed, anything else raises the error the
specification calls ConversionError. -/
def pyFloat : PyVal → Except PyError ℚ
  | PyVal.num q => Except.ok q
  | PyVal.boolean b => Except.ok (if b then 1 else 0)
  | PyVal.str s =>
    match parseFloat? s with
    | some q => Except.ok q
    | none => Except.error PyError.conversionError

/-- The numeric reading of a value, when Python == would compare it
numerically: ints, floats and booleans are numeric (True == 1 holds in
Python), strings are not. -/
def PyVal.toNum? : PyVal → Option ℚ
  | PyVal.num q => some q
  | PyVal.boolean b => some (if b then 1 else 0)
  | PyVal.str _ => none

/-- Model of the Python == comparison on status values: two numeric values
compare by numeric value, two strings compare by string, a string never equals
a number. -/
def pyEq (a b : PyVal) : Bool :=
  match a.toNum?, b.toNum? with
  | some x, some y => decide (x = y)
  | _, _ =>
    match a, b with
    | PyVal.str s, PyVal.str t => decide (s = t)
    | _, _ => false

/-- dose.filter_deme: keeps, in input order, the agents whose deme status
equals the given name up to case. -/
def filter_deme (deme_name : String) : List Agent → Except PyError (List Agent)
  | [] => Except.ok []
  | individual :: rest =>
    match individual.getStatus "deme" with
    | Except.error e => Except.error e
    | Except.ok v =>
      match v.upper with
      | Except.error e => Except.error e
      | Except.ok s =>
        if s = pyUpper deme_name then
          match filter_deme deme_name rest with
          | Except.error e => Except.error e
          | Except.ok tail => Except.ok (individual :: tail)
        else filter_deme deme_name rest

/-- dose.filter_gender: keeps, in input order, the agents whose gender status
equals the given value up to case. -/
def filter_gender (gender : String) : List Agent → Except PyError (List Agent)
  | [] => Except.ok []
  | individual :: rest =>
    match individual.getStatus "gender" with
    | Except.error e => Except.error e
    | Except.ok v =>
      match v.upper with
      | Except.error e => Except.error e
      | Except.ok s =>
        if s = pyUpper gender then
          match filter_gender gender rest with
          | Except.error e => Except.error e
          | Except.ok tail => Except.ok (individual :: tail)
        else filter_gender gender rest

/-- dose.filter_age: keeps, in input order, the agents whose age status,
coerced to a number, is strictly above minimum - 0.01 and strictly below
maximum + 0.01. -/
def filter_age (minimum maximum : ℚ) : List Agent → Except PyError (List Agent)
  | [] => Except.ok []
  | individual :: rest =>
    match individual.getStatus "age" with
    | Except.error e => Except.error e
    | Except.ok v =>
      match pyFloat v with
      | Except.error e => Except.error e
      | Except.ok q =>
        if minimum - 1/100 < q then
          if q < maximum + 1/100 then
            match filter_age minimum maximum rest with
            | Except.error e => Except.error e
            | Except.ok tail => Except.ok (individual :: tail)
          else filter_age minimum maximum rest
        else filter_age minimum maximum rest

/-- dose.filter_location: keeps, in input order, the agents whose location
status equals the given location under Python ==. -/
def filter_location (location : PyVal) : List Agent → Except PyError (List Agent)
  | [] => Except.ok []
  | individual :: rest =>
    match individual.getStatus "location" with
    | Except.error e => Except.error e
    | Except.ok v =>
      if pyEq v location then
        match filter_location location rest with
        | Except.error e => Except.error e
        | Except.ok tail => Except.ok (individual :: tail)
      else filter_location location rest

/-- dose.filter_vitality: the filter_age test applied to the vitality
status. -/
def filter_vitality (minimum maximum : ℚ) : List Agent → Except PyError (List Agent)
  | [] => Except.ok []
  | individual :: rest =>
    match individual.getStatus "vitality" with
    | Except.error e => Except.error e
    | Except.ok v =>
      match pyFloat v with
      | Except.error e => Except.error e
      | Except.ok q =>
        if minimum - 1/100 < q then
          if q < maximum + 1/100 then
            match filter_vitality minimum maximum rest with
            | Except.error e => Except.error e
            | Except.ok tail => Except.ok (individual :: tail)
          else filter_vitality minimum maximum rest
        else filter_vitality minimum maximum rest

/-- The condition argument of dose.filter_status. The source dispatches on
type(condition) at run time: a value of type str, int, float or bool selects
the scalar branch, anything else is indexed as a two-element (min, max)
range; the two shapes become the two constructors. -/
inductive Condition where
  | scalar : PyVal → Condition
  | pair : PyVal → PyVal → Condition
deriving DecidableEq, Repr

/-- dose.filter_status: the scalar branch keeps the agents whose status value
equals the condition under Python ==; the range branch coerces the status
value and both bounds with float() (evaluated in source order: the status
value, then the lower bound, and the upper bound only when the lower test
passes) and applies the same tolerance test as filter_age. -/
def filter_status (status_key : String) (condition : Condition) :
    List Agent → Except PyError (List Agent)
  | [] => Except.ok []
  | individual :: rest =>
    match condition with
    | Condition.scalar c =>
      match individual.getStatus status_key with
      | Except.error e => Except.error e
      | Except.ok v =>
        if pyEq v c then
          match filter_status status_key condition rest with
          | Except.error e => Except.error e
          | Except.ok tail => Except.ok (individual :: tail)
        else filter_status status_key condition rest
    | Condition.pair c0 c1 =>
      match individual.getStatus status_key with
      | Except.error e => Except.error e
      | Except.ok v =>
        match pyFloat v with
        | Except.error e => Except.error e
        | Except.ok q =>
          match pyFloat c0 with
          | Except.error e => Except.error e
          | Except.ok m0 =>
            if m0 - 1/100 < q then
              match pyFloat c1 with
              | Except.error e => Except.error e
              | Except.ok m1 =>
                if q < m1 + 1/100 then
                  match filter_status status_key condition rest with
                  | Except.error e => Except.error e
                  | Except.ok tail => Except.ok (individual :: tail)
                else filter_status status_key condition rest
            else filter_status status_key condition rest

/-- The capability set of the dose_functions abstract class: one field per
method, over abstract types for the world (W), a single organism (Org), and
the populations dictionary (Pops). An operation that mutates state returns
the updated state inside Except.ok, so an Except.error outcome carries no
mutation. population_report returns the report string. -/
structure DoseFunctions (W Org Pops : Type) where
  mutation_scheme : Org → Except PyError Org
  prepopulation_control : Pops → String → Except PyError Pops
  fitness : Pops → String → Except PyError Pops
  mating : Pops → String → Except PyError Pops
  postpopulation_control : Pops → String → Except PyError Pops
  generation_events : Pops → String → Except PyError Pops
  population_report : Pops → String → Except PyError String
  organism_movement : Pops → String → W → Except PyError (Pops × W)
  organism_location : Pops → String → W → Except PyError (Pops × W)
  ecoregulate : W → Except PyError W
  update_ecology : W → Nat → Nat → Nat → Except PyError W
  update_local : W → Nat → Nat → Nat → Except PyError W
  report : W → Except PyError W
  deployment_scheme : Pops → String → W → Except PyError (Pops × W)

/-- The dose_functions base class itself, i.e. the instance a simulation that
overrides nothing would run with: the body of every method is a bare raise
NotImplementedError statement, modelled as returning the error the
specification names UnimplementedCapability without touching any argument. -/
def dose_functions (W Org Pops : Type) : DoseFunctions W Org Pops where
  mutation_scheme := fun _ => Except.error PyError.unimplementedCapability
  prepopulation_control := fun _ _ => Except.error PyError.unimplementedCapability
  fitness := fun _ _ => Except.error PyError.unimplementedCapability
  mating := fun _ _ => Except.error PyError.unimplementedCapability
  postpopulation_control := fun _ _ => Except.error PyError.unimplementedCapability
  generation_events := fun _ _ => Except.error PyError.unimplementedCapability
  population_report := fun _ _ => Except.error PyError.unimplementedCapability
  organism_movement := fun _ _ _ => Except.error PyError.unimplementedCapability
  organism_location := fun _ _ _ => Except.error PyError.unimplementedCapability
  ecoregulate := fun _ => Except.error PyError.unimplementedCapability
  update_ecology := fun _ _ _ _ => Except.error PyError.unimplementedCapability
  update_local := fun _ _ _ _ => Except.error PyError.unimplementedCapability
  report := fun _ => Except.error PyError.unimplementedCapability
  deployment_scheme := fun _ _ _ => Except.error PyError.unimplementedCapability

/-- One observable step of dose.simulate, used to state ordering and counting
properties of the orchestrator: world construction, directory creation,
population spawning, interpreter version activation, the per-population
collaborator calls, and the per-generation hook and collaborator calls. -/
inductive Event where
  | worldCreated (wx wy wz : Nat)
  | makedirs (dir : String)
  | spawnPopulations
  | activateVersion
  | writeParameters (pop : String)
  | deployPop (pop : String)
  | ecoregulateCall
  | updateEcologyCall (c : Nat × Nat × Nat)
  | updateLocalCall (c : Nat × Nat × Nat)
  | interpretChromosomeCall (pop : String)
  | reportGenerationCall (pop : String) (gen : Int)
  | organismMovementCall (pop : String)
  | organismLocationCall (pop : String)
  | reportCall (c : Nat × Nat × Nat)
  | buryWorldCall (gen : Int)
  | closeResults (pop : String)
deriving DecidableEq, Repr

/-- The collaborators dose.simulate drives, over an abstract world state W:
the hook methods of the sim_functions object that receive the world, and the
external simulation_calls collaborators, each modelled as an opaque state
transformer. The cell-level hooks take the cell coordinate the iterator
passes them. -/
structure SimEnv (W : Type) where
  mkWorld : Nat → Nat → Nat → W
  deploy : String → W → W
  ecoregulate : W → W
  update_ecology : W → Nat × Nat × Nat → W
  update_local : W → Nat × Nat × Nat → W
  interpret_chromosome : String → W → W
  organism_movement : String → W → W
  organism_location : String → W → W
  report : W → Nat × Nat × Nat → W
  bury_world : Int → W → W

/-- Modelled from the spec: the eco_cell_iterator collaborator lives in
simulation_calls, which is not part of this repository snapshot; the
specification fixes its behavior as visiting every cell exactly once in
deterministic nested order, x outermost, then y, then z. This is that
visitation order. -/
def allCells (wx wy wz : Nat) : List (Nat × Nat × Nat) :=
  (List.range wx).flatMap fun x =>
    (List.range wy).flatMap fun y =>
      (List.range wz).map fun z => (x, y, z)

/-- Applies a cell function sequentially over a list of cells, threading the
world state and recording one event per visited cell. -/
def runCells {W : Type} (f : W → Nat × Nat × Nat → W) (ev : Nat × Nat × Nat → Event) :
    List (Nat × Nat × Nat) → W → List Event × W
  | [], w => ([], w)
  | c :: cs, w =>
    let r := runCells f ev cs (f w c)
    (ev c :: r.1, r.2)

/-- Modelled from the spec: eco_cell_iterator(World, sim_parameters, cell_fn)
applies cell_fn to every cell of the world grid in the allCells order. -/
def eco_cell_iterator {W : Type} (wx wy wz : Nat) (f : W → Nat × Nat × Nat → W)
    (ev : Nat × Nat × Nat → Event) (w : W) : List Event × W :=
  runCells f ev (allCells wx wy wz) w

/-- The body of the while loop of dose.simulate for one generation (source
lines 328-340, after the counter increment): ecoregulate, a full
update_ecology grid pass, a full update_local grid pass, interpret_chromosome,
report_generation (which receives no world), organism_movement,
organism_location, a full report grid pass, then bury_world. -/
def runGeneration {W : Type} (E : SimEnv W) (wx wy wz : Nat) (pop : String)
    (gen : Int) (w : W) : List Event × W :=
  let w1 := E.ecoregulate w
  let r2 := eco_cell_iterator wx wy wz E.update_ecology Event.updateEcologyCall w1
  let r3 := eco_cell_iterator wx wy wz E.update_local Event.updateLocalCall r2.2
  let w4 := E.interpret_chromosome pop r3.2
  let w5 := E.organism_movement pop w4
  let w6 := E.organism_location pop w5
  let r7 := eco_cell_iterator wx wy wz E.report Event.reportCall w6
  let w8 := E.bury_world gen r7.2
  (Event.ecoregulateCall :: (r2.1 ++ r3.1 ++
    [Event.interpretChromosomeCall pop, Event.reportGenerationCall pop gen,
     Event.organismMovementCall pop, Event.organismLocationCall pop] ++
    r7.1 ++ [Event.buryWorldCall gen]), w8)

/-- The while loop of dose.simulate: while generation_count < maximum_generations,
increment the counter and run one generation body. Returns the emitted events,
the final value of generation_count, and the final world. -/
def runGenerations {W : Type} (E : SimEnv W) (wx wy wz : Nat) (pop : String)
    (maxGen : Int) (count : Int) (w : W) : List Event × Int × W :=
  if count < maxGen then
    let g := runGeneration E wx wy wz pop (count + 1) w
    let r := runGenerations E wx wy wz pop maxGen (count + 1) g.2
    (g.1 ++ r.1, r.2)
  else ([], count, w)
termination_by (maxGen - count).toNat
decreasing_by
  omega

/-- The per-population block of dose.simulate (source lines 323-341):
write_parameters, deploy, the generation loop started at counter 0, then
close_results. -/
def runPopulation {W : Type} (E : SimEnv W) (wx wy wz : Nat) (maxGen : Int)
    (pop : String) (w : W) : List Event × W :=
  let r := runGenerations E wx wy wz pop maxGen 0 (E.deploy pop w)
  (Event.writeParameters pop :: Event.deployPop pop :: (r.1 ++ [Event.closeResults pop]),
   r.2.2)

/-- The population loop of dose.simulate: populations are processed one at a
time, in dictionary iteration order, each starting from the world state the
previous population left behind. -/
def runPopulations {W : Type} (E : SimEnv W) (wx wy wz : Nat) (maxGen : Int) :
    List String → W → List Event × W
  | [], w => ([], w)
  | p :: ps, w =>
    let r := runPopulation E wx wy wz maxGen p w
    let rest := runPopulations E wx wy wz maxGen ps r.2
    (r.1 ++ rest.1, rest.2)

/-- time_start of dose.simulate: the string of datetime.utcnow() with the
space separators replaced by a slash; joining the pieces of a single-character
split with a single-character separator is exactly that character
replacement. -/
def timeStart (utcStr : String) : String :=
  ⟨utcStr.data.map (fun c => if c = ' ' then '/' else c)⟩

/-- Python string slicing s[0:n]. -/
def strTake (s : String) (n : Nat) : String :=
  ⟨s.data.take n⟩

/-- time_start[0:10] of dose.simulate: the first ten characters, the date part
of the UTC timestamp. -/
def dateStamp (utcStr : String) : String :=
  strTake (timeStart utcStr) 10

/-- The run directory string of dose.simulate, from the format string
"%s\\Simulations\\%s_%s\\" applied to the working directory, the simulation
name, and the date part of the UTC start timestamp. The separators are
literal backslash characters. -/
def directoryOf (cwd simName utcStr : String) : String :=
  cwd ++ "\\Simulations\\" ++ simName ++ "_" ++ dateStamp utcStr ++ "\\"

/-- The directory creation step of dose.simulate: os.makedirs is called only
when the directory does not already exist; the filesystem is modelled as the
list of existing directories. -/
def makedirsIfAbsent (fs : List String) (dir : String) : List String :=
  if fs.contains dir then fs else dir :: fs

/-- dose.simulate (source lines 304-341), as the sequence of observable events
and the final world state: create the World from the three dimensions, derive
the run directory and create it when absent, update the parameter dictionary,
spawn the populations, activate the interpreter version, then run the
population loop on the one world. -/
def simulate {W : Type} (E : SimEnv W) (cwd simName utcStr : String)
    (fs : List String) (wx wy wz : Nat) (maxGen : Int) (pops : List String) :
    List Event × W :=
  let dir := directoryOf cwd simName utcStr
  let dirEvents := if fs.contains dir then [] else [Event.makedirs dir]
  let w0 := E.mkWorld wx wy wz
  let r := runPopulations E wx wy wz maxGen pops w0
  (Event.worldCreated wx wy wz ::
    (dirEvents ++ Event.spawnPopulations :: Event.activateVersion :: r.1), r.2)

/-- A value of the sim_parameters dictionary: an integer, a string, a list of
strings (the initial chromosome), or a reference to a method of the
sim_functions object, identified by the method name. -/
inductive ParamVal where
  | int : Int → ParamVal
  | str : String → ParamVal
  | strList : List String → ParamVal
  | hook : String → ParamVal
deriving DecidableEq, Repr

/-- The four derived entries dose.simulate adds to sim_parameters (source
lines 315-319): initial_chromosome is chromosome_size copies of the one-character
string 0, deployment_scheme is the deployment_scheme method of the
sim_functions object, starting_time and directory are the derived strings. -/
def derivedParams (chromosome_size : Nat) (time_start directory : String) :
    List (String × ParamVal) :=
  [("initial_chromosome", ParamVal.strList (List.replicate chromosome_size "0")),
   ("deployment_scheme", ParamVal.hook "deployment_scheme"),
   ("starting_time", ParamVal.str time_start),
   ("directory", ParamVal.str directory)]

/-- Python dict.update: the updating entries win on key collision, every
other original entry is kept. -/
def dictUpdate (d upd : List (String × ParamVal)) : List (String × ParamVal) :=
  d.filter (fun p => (upd.lookup p.1).isNone) ++ upd

/-- The sim_parameters.update call of dose.simulate: the caller-supplied
dictionary extended in place with the four derived entries. -/
def setupParams (sim_parameters : List (String × ParamVal)) (chromosome_size : Nat)
    (time_start directory : String) : List (String × ParamVal) :=
  dictUpdate sim_parameters (derivedParams chromosome_size time_start directory)

/-- The coerced age of an agent: status lookup followed by float coercion. -/
def ageQ (a : Agent) : Except PyError ℚ :=
  match a.getStatus "age" with
  | Except.ok v => pyFloat v
  | Except.error e => Except.error e

/-- The coerced vitality of an agent. -/
def vitalityQ (a : Agent) : Except PyError ℚ :=
  match a.getStatus "vitality" with
  | Except.ok v => pyFloat v
  | Except.error e => Except.error e

/-- The coerced value of an arbitrary status key of an agent. -/
def statusQ (k : String) (a : Agent) : Except PyError ℚ :=
  match a.getStatus k with
  | Except.ok v => pyFloat v
  | Except.error e => Except.error e

/-- The tolerance-bounded range test of the specification: strictly above
minimum - 0.01 and strictly below maximum + 0.01. -/
def inTolRange (minimum maximum q : ℚ) : Bool :=
  decide (minimum - 1/100 < q) && decide (q < maximum + 1/100)

/-- The agents filter_age keeps, per the specification: those whose coerced
age passes the tolerance-bounded range test. -/
def keptByAge (minimum maximum : ℚ) (a : Agent) : Bool :=
  match ageQ a with
  | Except.ok q => inTolRange minimum maximum q
  | Except.error _ => false

/-- The agents filter_vitality keeps, per the specification. -/
def keptByVitality (minimum maximum : ℚ) (a : Agent) : Bool :=
  match vitalityQ a with
  | Except.ok q => inTolRange minimum maximum q
  | Except.error _ => false

/-- The agents the scalar branch of filter_status keeps, per the
specification: status value equal to the condition. -/
def keptByScalar (k : String) (c : PyVal) (a : Agent) : Bool :=
  match a.getStatus k with
  | Except.ok v => pyEq v c
  | Except.error _ => false

/-- The agents the range branch of filter_status keeps, per the
specification: coerced status value inside the tolerance-bounded range. -/
def keptByRange (k : String) (m0 m1 : ℚ) (a : Agent) : Bool :=
  match statusQ k a with
  | Except.ok q => inTolRange m0 m1 q
  | Except.error _ => false

/-- The event sequence of one generation, as the specification enumerates the
phases: ecoregulate, the full update_ecology pass, the full update_local
pass, interpret_chromosome, report_generation, organism_movement,
organism_location, the full per-cell report pass, bury_world. -/
def genTrace (wx wy wz : Nat) (pop : String) (gen : Int) : List Event :=
  Event.ecoregulateCall :: ((allCells wx wy wz).map Event.updateEcologyCall ++
    (allCells wx wy wz).map Event.updateLocalCall ++
    [Event.interpretChromosomeCall pop, Event.reportGenerationCall pop gen,
     Event.organismMovementCall pop, Event.organismLocationCall pop] ++
    (allCells wx wy wz).map Event.reportCall ++ [Event.buryWorldCall gen])

/-- Recognizes an ecoregulate call. -/
def isEcoregulateCall : Event → Bool
  | Event.ecoregulateCall => true
  | _ => false

/-- Recognizes a bury_world call, at any generation number. -/
def isBuryWorldCall : Event → Bool
  | Event.buryWorldCall _ => true
  | _ => false

/-- Recognizes the world construction event, at any dimensions. -/
def isWorldCreated : Event → Bool
  | Event.worldCreated _ _ _ => true
  | _ => false

/-- Recognizes any event of the generation loop body: one of the nine phases
of a generation. -/
def isGenPhaseEvent : Event → Bool
  | Event.ecoregulateCall => true
  | Event.updateEcologyCall _ => true
  | Event.updateLocalCall _ => true
  | Event.interpretChromosomeCall _ => true
  | Event.reportGenerationCall _ _ => true
  | Event.organismMovementCall _ => true
  | Event.organismLocationCall _ => true
  | Event.reportCall _ => true
  | Event.buryWorldCall _ => true
  | _ => false

theorem char_toNat_ofNat (n : Nat) (h : n < 0xd800) : (Char.ofNat n).toNat = n := by
  have hv : n.isValidChar := Or.inl h
  simp [Char.ofNat, hv, Char.ofNatAux, Char.toNat]
  rfl

theorem char_toUpper_idem (c : Char) : Char.toUpper (Char.toUpper c) = Char.toUpper c := by
  unfold Char.toUpper
  by_cases h : 97 ≤ c.toNat ∧ c.toNat ≤ 122
  · simp only [ge_iff_le, h, and_self, if_pos]
    have hv : (Char.ofNat (c.toNat - 32)).toNat = c.toNat - 32 :=
      char_toNat_ofNat _ (by omega)
    rw [if_neg]
    rw [hv]
    omega
  · rw [if_neg h, if_neg h]

theorem pyUpper_idem (s : String) : pyUpper (pyUpper s) = pyUpper s := by
  unfold pyUpper
  simp only [List.map_map]
  congr 1
  exact List.map_congr_left (fun c _ => char_toUpper_idem c)

/-- C3: every operation of the capability set of the dose_functions base
class — mutation_scheme, prepopulation_control, fitness, mating,
postpopulation_control, generation_events, population_report,
organism_movement, organism_location, ecoregulate, update_ecology,
update_local, report, and deployment_scheme — fails on every input with the
UnimplementedCapability error when not overridden; since a mutated state is
only communicated through an Except.ok result, the error outcome carries no
World or Population mutation for the phase. -/
theorem dose_functions_unimplemented_defaults (W Org Pops : Type) :
    (∀ o : Org, (dose_functions W Org Pops).mutation_scheme o
      = Except.error PyError.unimplementedCapability) ∧
    (∀ (ps : Pops) (n : String), (dose_functions W Org Pops).prepopulation_control ps n
      = Except.error PyError.unimplementedCapability) ∧
    (∀ (ps : Pops) (n : String), (dose_functions W Org Pops).fitness ps n
      = Except.error PyError.unimplementedCapability) ∧
    (∀ (ps : Pops) (n : String), (dose_functions W Org Pops).mating ps n
      = Except.error PyError.unimplementedCapability) ∧
    (∀ (ps : Pops) (n : String), (dose_functions W Org Pops).postpopulation_control ps n
      = Except.error PyError.unimplementedCapability) ∧
    (∀ (ps : Pops) (n : String), (dose_functions W Org Pops).generation_events ps n
      = Except.error PyError.unimplementedCapability) ∧
    (∀ (ps : Pops) (n : String), (dose_functions W Org Pops).population_report ps n
      = Except.error PyError.unimplementedCapability) ∧
    (∀ (ps : Pops) (n : String) (w : W), (dose_functions W Org Pops).organism_movement ps n w
      = Except.error PyError.unimplementedCapability) ∧
    (∀ (ps : Pops) (n : String) (w : W), (dose_functions W Org Pops).organism_location ps n w
      = Except.error PyError.unimplementedCapability) ∧
    (∀ w : W, (dose_functions W Org Pops).ecoregulate w
      = Except.error PyError.unimplementedCapability) ∧
    (∀ (w : W) (x y z : Nat), (dose_functions W Org Pops).update_ecology w x y z
      = Except.error PyError.unimplementedCapability) ∧
    (∀ (w : W) (x y z : Nat), (dose_functions W Org Pops).update_local w x y z
      = Except.error PyError.unimplementedCapability) ∧
    (∀ w : W, (dose_functions W Org Pops).report w
      = Except.error PyError.unimplementedCapability) ∧
    (∀ (ps : Pops) (n : String) (w : W), (dose_functions W Org Pops).deployment_scheme ps n w
      = Except.error PyError.unimplementedCapability) :=
  ⟨fun _ => rfl, fun _ _ => rfl, fun _ _ => rfl, fun _ _ => rfl, fun _ _ => rfl,
   fun _ _ => rfl, fun _ _ => rfl, fun _ _ _ => rfl, fun _ _ _ => rfl, fun _ => rfl,
   fun _ _ _ _ => rfl, fun _ _ _ _ => rfl, fun _ => rfl, fun _ _ _ => rfl⟩

theorem filter_deme_upper_arg (n : String) (A : List Agent) :
    filter_deme n A = filter_deme (pyUpper n) A := by
  induction A with
  | nil => rfl
  | cons a rest ih => simp only [filter_deme, pyUpper_idem, ih]

theorem filter_gender_upper_arg (n : String) (A : List Agent) :
    filter_gender n A = filter_gender (pyUpper n) A := by
  induction A with
  | nil => rfl
  | cons a rest ih => simp only [filter_gender, pyUpper_idem, ih]

theorem filter_deme_sublist (n : String) :
    ∀ A out : List Agent, filter_deme n A = Except.ok out → out.Sublist A := by
  intro A
  induction A with
  | nil =>
    intro out h
    simp only [filter_deme, Except.ok.injEq] at h
    subst h
    exact List.Sublist.refl []
  | cons a rest ih =>
    intro out h
    simp only [filter_deme] at h
    split at h
    · cases h
    · split at h
      · cases h
      · split at h
        · split at h
          · cases h
          · rename_i tail htail
            rw [Except.ok.injEq] at h
            subst h
            exact List.Sublist.cons₂ a (ih tail htail)
        · exact List.Sublist.cons a (ih out h)

theorem filter_gender_sublist (n : String) :
    ∀ A out : List Agent, filter_gender n A = Except.ok out → out.Sublist A := by
  intro A
  induction A with
  | nil =>
    intro out h
    simp only [filter_gender, Except.ok.injEq] at h
    subst h
    exact List.Sublist.refl []
  | cons a rest ih =>
    intro out h
    simp only [filter_gender] at h
    split at h
    · cases h
    · split at h
      · cases h
      · split at h
        · split at h
          · cases h
          · rename_i tail htail
            rw [Except.ok.injEq] at h
            subst h
            exact List.Sublist.cons₂ a (ih tail htail)
        · exact List.Sublist.cons a (ih out h)

theorem filter_deme_self_mem :
    ∀ (A : List Agent) (a : Agent), a ∈ A → ∀ (s : String) (out : List Agent),
      a.getStatus "deme" = Except.ok (PyVal.str s) →
      filter_deme s A = Except.ok out → a ∈ out := by
  intro A
  induction A with
  | nil => intro a ha; cases ha
  | cons b rest ih =>
    intro a ha s out hs hf
    simp only [filter_deme] at hf
    rcases List.mem_cons.mp ha with rfl | hmem
    · rw [hs] at hf
      simp only [PyVal.upper, if_true] at hf
      split at hf
      · cases hf
      · rename_i tail htail
        rw [Except.ok.injEq] at hf
        subst hf
        exact List.mem_cons_self a tail
    · split at hf
      · cases hf
      · split at hf
        · cases hf
        · split at hf
          · split at hf
            · cases hf
            · rename_i tail htail
              rw [Except.ok.injEq] at hf
              subst hf
              exact List.mem_cons_of_mem b (ih a hmem s tail hs htail)
          · exact ih a hmem s out hs hf

theorem filter_gender_self_mem :
    ∀ (A : List Agent) (a : Agent), a ∈ A → ∀ (s : String) (out : List Agent),
      a.getStatus "gender" = Except.ok (PyVal.str s) →
      filter_gender s A = Except.ok out → a ∈ out := by
  intro A
  induction A with
  | nil => intro a ha; cases ha
  | cons b rest ih =>
    intro a ha s out hs hf
    simp only [filter_gender] at hf
    rcases List.mem_cons.mp ha with rfl | hmem
    · rw [hs] at hf
      simp only [PyVal.upper, if_true] at hf
      split at hf
      · cases hf
      · rename_i tail htail
        rw [Except.ok.injEq] at hf
        subst hf
        exact List.mem_cons_self a tail
    · split at hf
      · cases hf
      · split at hf
        · cases hf
        · split at hf
          · split at hf
            · cases hf
            · rename_i tail htail
              rw [Except.ok.injEq] at hf
              subst hf
              exact List.mem_cons_of_mem b (ih a hmem s tail hs htail)
          · exact ih a hmem s out hs hf

/-- C6: filter_deme and filter_gender are case-insensitive (filtering with a
name and with its uppercased form agree, on every input including failing
ones), every successful result is a subsequence of the input in original
order (the input itself is never changed, the result being a new list), and
the partition by these filters covers the input: every agent of the input
appears in the filter applied with that agent's own deme (resp. gender)
value, so the union over all distinct values is the whole input. -/
theorem filter_deme_gender_spec (n : String) (A : List Agent) :
    (filter_deme n A = filter_deme (pyUpper n) A) ∧
    (filter_gender n A = filter_gender (pyUpper n) A) ∧
    (∀ out, filter_deme n A = Except.ok out → out.Sublist A) ∧
    (∀ out, filter_gender n A = Except.ok out → out.Sublist A) ∧
    (∀ a ∈ A, ∀ (s : String) (out : List Agent),
      a.getStatus "deme" = Except.ok (PyVal.str s) →
      filter_deme s A = Except.ok out → a ∈ out) ∧
    (∀ a ∈ A, ∀ (s : String) (out : List Agent),
      a.getStatus "gender" = Except.ok (PyVal.str s) →
      filter_gender s A = Except.ok out → a ∈ out) :=
  ⟨filter_deme_upper_arg n A, filter_gender_upper_arg n A,
   fun out => filter_deme_sublist n A out,
   fun out => filter_gender_sublist n A out,
   fun a ha s out => filter_deme_self_mem A a ha s out,
   fun a ha s out => filter_gender_self_mem A a ha s out⟩

theorem filter_deme_gender_spec_witness :
    ∃ out, filter_deme "North" [(⟨[("deme", PyVal.str "nORth")]⟩ : Agent)] = Except.ok out ∧
      (⟨[("deme", PyVal.str "nORth")]⟩ : Agent) ∈ out ∧
      out.Sublist [(⟨[("deme", PyVal.str "nORth")]⟩ : Agent)] := by
  have h := filter_deme_gender_spec "North" [(⟨[("deme", PyVal.str "nORth")]⟩ : Agent)]
  refine ⟨[(⟨[("deme", PyVal.str "nORth")]⟩ : Agent)], rfl, ?_, ?_⟩
  · exact h.2.2.2.2.1 _ (List.mem_singleton.mpr rfl) "nORth" _ rfl (by rfl)
  · exact h.2.2.1 _ rfl

theorem ageQ_destruct (a : Agent) (q : ℚ) (hq : ageQ a = Except.ok q) :
    ∃ v, a.getStatus "age" = Except.ok v ∧ pyFloat v = Except.ok q := by
  unfold ageQ at hq
  cases hst : a.getStatus "age" with
  | ok v => rw [hst] at hq; exact ⟨v, rfl, hq⟩
  | error e => rw [hst] at hq; cases hq

theorem vitalityQ_destruct (a : Agent) (q : ℚ) (hq : vitalityQ a = Except.ok q) :
    ∃ v, a.getStatus "vitality" = Except.ok v ∧ pyFloat v = Except.ok q := by
  unfold vitalityQ at hq
  cases hst : a.getStatus "vitality" with
  | ok v => rw [hst] at hq; exact ⟨v, rfl, hq⟩
  | error e => rw [hst] at hq; cases hq

theorem filter_age_eq_filter (minimum maximum : ℚ) :
    ∀ A : List Agent, (∀ a ∈ A, (ageQ a).isOk = true) →
      filter_age minimum maximum A = Except.ok (A.filter (keptByAge minimum maximum)) := by
  intro A
  induction A with
  | nil => intro _; rfl
  | cons a rest ih =>
    intro h
    have ha : (ageQ a).isOk = true := h a (List.mem_cons_self a rest)
    have hrest := ih (fun b hb => h b (List.mem_cons_of_mem a hb))
    obtain ⟨q, hq⟩ : ∃ q, ageQ a = Except.ok q := by
      cases hag : ageQ a with
      | ok q => exact ⟨q, rfl⟩
      | error e => rw [hag] at ha; cases ha
    obtain ⟨v, hv, hf⟩ := ageQ_destruct a q hq
    simp only [filter_age, hv, hf, List.filter_cons, keptByAge, hq, inTolRange, hrest,
      Bool.and_eq_true, decide_eq_true_eq]
    split_ifs <;> first | rfl | tauto

theorem filter_vitality_eq_filter (minimum maximum : ℚ) :
    ∀ A : List Agent, (∀ a ∈ A, (vitalityQ a).isOk = true) →
      filter_vitality minimum maximum A
        = Except.ok (A.filter (keptByVitality minimum maximum)) := by
  intro A
  induction A with
  | nil => intro _; rfl
  | cons a rest ih =>
    intro h
    have ha : (vitalityQ a).isOk = true := h a (List.mem_cons_self a rest)
    have hrest := ih (fun b hb => h b (List.mem_cons_of_mem a hb))
    obtain ⟨q, hq⟩ : ∃ q, vitalityQ a = Except.ok q := by
      cases hag : vitalityQ a with
      | ok q => exact ⟨q, rfl⟩
      | error e => rw [hag] at ha; cases ha
    obtain ⟨v, hv, hf⟩ := vitalityQ_destruct a q hq
    simp only [filter_vitality, hv, hf, List.filter_cons, keptByVitality, hq, inTolRange, hrest,
      Bool.and_eq_true, decide_eq_true_eq]
    split_ifs <;> first | rfl | tauto

/-- C4 counterexample: the claim asserts filter_age(10, 20, agents) includes
every agent with age exactly 9.99; the code excludes such an agent, because
9.99 is exactly the strict lower bound 10 - 0.01 of the comparison (and
CPython computes the float expression 10 - 0.01 to exactly the double printed
9.99, so the exclusion also holds under IEEE float semantics). -/
theorem filter_age_999_excluded :
    filter_age 10 20 [⟨[("age", PyVal.num (999/100))]⟩] = Except.ok [] := by
  norm_num [filter_age, Agent.getStatus, pyFloat, List.lookup]

/-- C4 amended: filter_age(minimum, maximum, agents) keeps exactly the agents
whose coerced age q satisfies minimum - 0.01 < q and q < maximum + 0.01, so
boundary values equal to minimum or maximum are included and an age of 9.98
is excluded for minimum 10 — but an age exactly equal to minimum - 0.01, such
as 9.99 for minimum 10, is excluded by the strict inequality (CPython
computes 10 - 0.01 to exactly the double 9.99, so its strict comparison
excludes 9.99 as well); the same bound semantics holds for filter_vitality on
the vitality attribute. -/
theorem filter_age_tolerance_spec (minimum maximum : ℚ) (A : List Agent)
    (hA : ∀ a ∈ A, (ageQ a).isOk = true)
    (hV : ∀ a ∈ A, (vitalityQ a).isOk = true) :
    (filter_age minimum maximum A = Except.ok (A.filter (keptByAge minimum maximum))) ∧
    (filter_vitality minimum maximum A
      = Except.ok (A.filter (keptByVitality minimum maximum))) ∧
    (∀ (a : Agent) (q : ℚ), ageQ a = Except.ok q →
      (keptByAge minimum maximum a = true ↔ minimum - 1/100 < q ∧ q < maximum + 1/100)) ∧
    (∀ (a : Agent) (q : ℚ), ageQ a = Except.ok q → minimum ≤ maximum →
      (q = minimum ∨ q = maximum) → keptByAge minimum maximum a = true) ∧
    (∀ a : Agent, ageQ a = Except.ok (minimum - 1/100) →
      keptByAge minimum maximum a = false) ∧
    (filter_age 10 20 [⟨[("age", PyVal.num 10)]⟩, ⟨[("age", PyVal.num 20)]⟩,
        ⟨[("age", PyVal.num (998/100))]⟩, ⟨[("age", PyVal.num (999/100))]⟩]
      = Except.ok [⟨[("age", PyVal.num 10)]⟩, ⟨[("age", PyVal.num 20)]⟩]) := by
  refine ⟨filter_age_eq_filter minimum maximum A hA,
    filter_vitality_eq_filter minimum maximum A hV, ?_, ?_, ?_, ?_⟩
  · intro a q hq
    simp [keptByAge, hq, inTolRange]
  · intro a q hq hle hbound
    simp only [keptByAge, hq, inTolRange, Bool.and_eq_true, decide_eq_true_eq]
    rcases hbound with rfl | rfl
    · constructor <;> [linarith; linarith]
    · constructor <;> [linarith; linarith]
  · intro a hq
    simp [keptByAge, hq, inTolRange]
  · norm_num [filter_age, Agent.getStatus, pyFloat, List.lookup]

theorem filter_age_tolerance_spec_witness :
    filter_age 10 20 [(⟨[("age", PyVal.num 10), ("vitality", PyVal.num 5)]⟩ : Agent)]
      = Except.ok ([(⟨[("age", PyVal.num 10), ("vitality", PyVal.num 5)]⟩ : Agent)].filter
          (keptByAge 10 20)) ∧
    filter_vitality 10 20 [(⟨[("age", PyVal.num 10), ("vitality", PyVal.num 5)]⟩ : Agent)]
      = Except.ok ([(⟨[("age", PyVal.num 10), ("vitality", PyVal.num 5)]⟩ : Agent)].filter
          (keptByVitality 10 20)) := by
  have h := filter_age_tolerance_spec 10 20
    [(⟨[("age", PyVal.num 10), ("vitality", PyVal.num 5)]⟩ : Agent)]
    (by intro a ha; rw [List.mem_singleton.mp ha]; rfl)
    (by intro a ha; rw [List.mem_singleton.mp ha]; rfl)
  exact ⟨h.1, h.2.1⟩

theorem pyFloat_error_eq (v : PyVal) (e : PyError) (h : pyFloat v = Except.error e) :
    e = PyError.conversionError := by
  cases v with
  | num q => cases h
  | boolean b => cases h
  | str s =>
    simp only [pyFloat] at h
    cases hp : parseFloat? s with
    | some q => rw [hp] at h; cases h
    | none =>
      rw [hp] at h
      rw [Except.error.injEq] at h
      exact h.symm

theorem statusQ_destruct (k : String) (a : Agent) (q : ℚ)
    (hq : statusQ k a = Except.ok q) :
    ∃ v, a.getStatus k = Except.ok v ∧ pyFloat v = Except.ok q := by
  unfold statusQ at hq
  cases hst : a.getStatus k with
  | ok v => rw [hst] at hq; exact ⟨v, rfl, hq⟩
  | error e => rw [hst] at hq; cases hq

theorem filter_status_scalar_eq (k : String) (c : PyVal) :
    ∀ A : List Agent, (∀ a ∈ A, (a.getStatus k).isOk = true) →
      filter_status k (Condition.scalar c) A
        = Except.ok (A.filter (keptByScalar k c)) := by
  intro A
  induction A with
  | nil => intro _; rfl
  | cons a rest ih =>
    intro h
    have ha : (a.getStatus k).isOk = true := h a (List.mem_cons_self a rest)
    have hrest := ih (fun b hb => h b (List.mem_cons_of_mem a hb))
    obtain ⟨v, hv⟩ : ∃ v, a.getStatus k = Except.ok v := by
      cases hst : a.getStatus k with
      | ok v => exact ⟨v, rfl⟩
      | error e => rw [hst] at ha; cases ha
    simp only [filter_status, hv, List.filter_cons, keptByScalar, hrest]
    by_cases hc : pyEq v c = true
    · simp [hc]
    · simp [hc]

theorem filter_status_range_eq (k : String) (c0 c1 : PyVal) (m0 m1 : ℚ)
    (h0 : pyFloat c0 = Except.ok m0) (h1 : pyFloat c1 = Except.ok m1) :
    ∀ A : List Agent, (∀ a ∈ A, (statusQ k a).isOk = true) →
      filter_status k (Condition.pair c0 c1) A
        = Except.ok (A.filter (keptByRange k m0 m1)) := by
  intro A
  induction A with
  | nil => intro _; rfl
  | cons a rest ih =>
    intro h
    have ha : (statusQ k a).isOk = true := h a (List.mem_cons_self a rest)
    have hrest := ih (fun b hb => h b (List.mem_cons_of_mem a hb))
    obtain ⟨q, hq⟩ : ∃ q, statusQ k a = Except.ok q := by
      cases hag : statusQ k a with
      | ok q => exact ⟨q, rfl⟩
      | error e => rw [hag] at ha; cases ha
    obtain ⟨v, hv, hf⟩ := statusQ_destruct k a q hq
    simp only [filter_status, hv, hf, h0, h1, List.filter_cons, keptByRange, hq, inTolRange,
      hrest, Bool.and_eq_true, decide_eq_true_eq]
    split_ifs <;> first | rfl | tauto

theorem filter_status_range_conversion_error (k : String) (c0 c1 : PyVal) (m0 : ℚ)
    (h0 : pyFloat c0 = Except.ok m0) :
    ∀ A : List Agent, (∀ a ∈ A, (a.getStatus k).isOk = true) →
      (∃ a ∈ A, ∃ v, a.getStatus k = Except.ok v ∧
        pyFloat v = Except.error PyError.conversionError) →
      filter_status k (Condition.pair c0 c1) A = Except.error PyError.conversionError := by
  intro A
  induction A with
  | nil =>
    intro _ hbad
    obtain ⟨a, ha, _⟩ := hbad
    cases ha
  | cons a rest ih =>
    intro h hbad
    have ha : (a.getStatus k).isOk = true := h a (List.mem_cons_self a rest)
    have hrest := fun hb => ih (fun b m => h b (List.mem_cons_of_mem a m)) hb
    obtain ⟨v, hv⟩ : ∃ v, a.getStatus k = Except.ok v := by
      cases hst : a.getStatus k with
      | ok v => exact ⟨v, rfl⟩
      | error e => rw [hst] at ha; cases ha
    cases hfv : pyFloat v with
    | error e =>
      have he := pyFloat_error_eq v e hfv
      subst he
      simp only [filter_status, hv, hfv]
    | ok q =>
      have hbadrest : ∃ b ∈ rest, ∃ u, b.getStatus k = Except.ok u ∧
          pyFloat u = Except.error PyError.conversionError := by
        obtain ⟨b, hb, u, hbu, hue⟩ := hbad
        rcases List.mem_cons.mp hb with rfl | hbr
        · rw [hv] at hbu
          rw [Except.ok.injEq] at hbu
          subst hbu
          rw [hue] at hfv
          cases hfv
        · exact ⟨b, hbr, u, hbu, hue⟩
      simp only [filter_status, hv, hfv, h0]
      by_cases hc1 : m0 - 1/100 < q
      · rw [if_pos hc1]
        cases hfc1 : pyFloat c1 with
        | error e =>
          have he := pyFloat_error_eq c1 e hfc1
          subst he
          simp only [hfc1]
        | ok m1 =>
          simp only [hfc1]
          by_cases hc2 : q < m1 + 1/100
          · rw [if_pos hc2, hrest hbadrest]
          · rw [if_neg hc2]
            exact hrest hbadrest
      · rw [if_neg hc1]
        exact hrest hbadrest

/-- C5: filter_status is dual-mode. With a scalar condition (a string, an
int, a float or a bool) it keeps exactly the agents whose status value at the
key equals the condition under the Python equality; with a two-element
(min, max) condition it keeps exactly the agents whose status value, coerced
to a number, lies strictly above min - 0.01 and strictly below max + 0.01;
and in the range branch an agent whose status value does not coerce to a
number makes the call fail with the ConversionError. -/
theorem filter_status_dual_mode (k : String) :
    (∀ (c : PyVal) (A : List Agent), (∀ a ∈ A, (a.getStatus k).isOk = true) →
      filter_status k (Condition.scalar c) A
        = Except.ok (A.filter (keptByScalar k c))) ∧
    (∀ (c0 c1 : PyVal) (m0 m1 : ℚ), pyFloat c0 = Except.ok m0 →
      pyFloat c1 = Except.ok m1 →
      ∀ A : List Agent, (∀ a ∈ A, (statusQ k a).isOk = true) →
        filter_status k (Condition.pair c0 c1) A
          = Except.ok (A.filter (keptByRange k m0 m1))) ∧
    (∀ (a : Agent) (q m0 m1 : ℚ), statusQ k a = Except.ok q →
      (keptByRange k m0 m1 a = true ↔ m0 - 1/100 < q ∧ q < m1 + 1/100)) ∧
    (∀ (c0 c1 : PyVal) (m0 : ℚ), pyFloat c0 = Except.ok m0 →
      ∀ A : List Agent, (∀ a ∈ A, (a.getStatus k).isOk = true) →
        (∃ a ∈ A, ∃ v, a.getStatus k = Except.ok v ∧
          pyFloat v = Except.error PyError.conversionError) →
        filter_status k (Condition.pair c0 c1) A
          = Except.error PyError.conversionError) := by
  refine ⟨fun c A h => filter_status_scalar_eq k c A h,
    fun c0 c1 m0 m1 h0 h1 A h => filter_status_range_eq k c0 c1 m0 m1 h0 h1 A h,
    ?_,
    fun c0 c1 m0 h0 A h hbad =>
      filter_status_range_conversion_error k c0 c1 m0 h0 A h hbad⟩
  intro a q m0 m1 hq
  simp [keptByRange, hq, inTolRange]

theorem filter_status_dual_mode_witness :
    filter_status "size" (Condition.scalar (PyVal.num 5))
        [(⟨[("size", PyVal.num 5)]⟩ : Agent), (⟨[("size", PyVal.num 7)]⟩ : Agent)]
      = Except.ok ([(⟨[("size", PyVal.num 5)]⟩ : Agent),
          (⟨[("size", PyVal.num 7)]⟩ : Agent)].filter (keptByScalar "size" (PyVal.num 5))) ∧
    filter_status "size" (Condition.pair (PyVal.num 1) (PyVal.num 5))
        [(⟨[("size", PyVal.num 5)]⟩ : Agent)]
      = Except.ok ([(⟨[("size", PyVal.num 5)]⟩ : Agent)].filter (keptByRange "size" 1 5)) ∧
    filter_status "size" (Condition.pair (PyVal.num 1) (PyVal.num 5))
        [(⟨[("size", PyVal.str "heavy")]⟩ : Agent)]
      = Except.error PyError.conversionError := by
  have h := filter_status_dual_mode "size"
  refine ⟨h.1 (PyVal.num 5) _ ?_, h.2.1 (PyVal.num 1) (PyVal.num 5) 1 5 rfl rfl _ ?_,
    h.2.2.2 (PyVal.num 1) (PyVal.num 5) 1 rfl _ ?_ ?_⟩
  · intro a ha
    rcases List.mem_cons.mp ha with rfl | ha2
    · rfl
    · rw [List.mem_singleton.mp ha2]; rfl
  · intro a ha
    rw [List.mem_singleton.mp ha]; rfl
  · intro a ha
    rw [List.mem_singleton.mp ha]; rfl
  · exact ⟨⟨[("size", PyVal.str "heavy")]⟩, List.mem_singleton.mpr rfl,
      PyVal.str "heavy", rfl, rfl⟩

theorem runCells_fst {W : Type} (f : W → Nat × Nat × Nat → W) (ev : Nat × Nat × Nat → Event) :
    ∀ (cs : List (Nat × Nat × Nat)) (w : W), (runCells f ev cs w).1 = cs.map ev := by
  intro cs
  induction cs with
  | nil => intro w; rfl
  | cons c rest ih => intro w; simp [runCells, ih]

theorem runGeneration_fst {W : Type} (E : SimEnv W) (wx wy wz : Nat) (pop : String)
    (gen : Int) (w : W) :
    (runGeneration E wx wy wz pop gen w).1 = genTrace wx wy wz pop gen := by
  simp [runGeneration, eco_cell_iterator, runCells_fst, genTrace]

theorem flatMap_range_shift {A : Type} (f : Int → List A) :
    ∀ (n : Nat) (c : Int),
      (List.range (n + 1)).flatMap (fun i => f (c + 1 + (i : Int)))
        = f (c + 1) ++ (List.range n).flatMap (fun i => f (c + 1 + 1 + (i : Int))) := by
  intro n
  induction n with
  | zero =>
    intro c
    rw [List.range_succ]
    simp
  | succ n ih =>
    intro c
    rw [List.range_succ, List.flatMap_append, ih c]
    rw [List.range_succ, List.flatMap_append]
    rw [List.append_assoc]
    congr 2
    simp only [List.flatMap_cons, List.flatMap_nil, List.append_nil]
    congr 1
    push_cast
    ring

theorem runGenerations_spec {W : Type} (E : SimEnv W) (wx wy wz : Nat) (pop : String) :
    ∀ (n : Nat) (maxGen count : Int), (maxGen - count).toNat = n → ∀ w : W,
      (runGenerations E wx wy wz pop maxGen count w).1
        = (List.range n).flatMap (fun i => genTrace wx wy wz pop (count + 1 + (i : Int))) ∧
      (count ≤ maxGen → (runGenerations E wx wy wz pop maxGen count w).2.1 = maxGen) := by
  intro n
  induction n with
  | zero =>
    intro maxGen count h w
    have hnot : ¬ count < maxGen := by omega
    rw [runGenerations, if_neg hnot]
    exact ⟨by simp, fun hle => by dsimp only; omega⟩
  | succ n ih =>
    intro maxGen count h w
    have hlt : count < maxGen := by omega
    have h2 : (maxGen - (count + 1)).toNat = n := by omega
    obtain ⟨ht, hc⟩ := ih maxGen (count + 1) h2 ((runGeneration E wx wy wz pop (count + 1) w).2)
    rw [runGenerations, if_pos hlt]
    dsimp only
    constructor
    · rw [ht, runGeneration_fst]
      exact (flatMap_range_shift (genTrace wx wy wz pop) n count).symm
    · intro _
      exact hc (by omega)

theorem allCells_eq_product (wx wy wz : Nat) :
    allCells wx wy wz = (List.range wx) ×ˢ ((List.range wy) ×ˢ (List.range wz)) := by
  simp only [allCells, SProd.sprod, List.product, List.map_flatMap, List.map_map]
  rfl

theorem allCells_nodup (wx wy wz : Nat) : (allCells wx wy wz).Nodup := by
  rw [allCells_eq_product]
  exact (List.nodup_range wx).product ((List.nodup_range wy).product (List.nodup_range wz))

theorem mem_allCells (wx wy wz : Nat) (c : Nat × Nat × Nat) :
    c ∈ allCells wx wy wz ↔ c.1 < wx ∧ c.2.1 < wy ∧ c.2.2 < wz := by
  rw [allCells_eq_product]
  rcases c with ⟨x, y, z⟩
  simp [List.mem_product, List.mem_range]

/-- C1: within every generation of every population, the phases run in
exactly the fixed order ecoregulate, a full update_ecology grid pass, then a
full separate update_local grid pass (all update_ecology cell visits precede
every update_local visit, both passes covering each in-range cell exactly
once), interpret_chromosome, report_generation, organism_movement, then
organism_location, a per-cell report pass over the full grid, and finally
bury_world — genTrace lists the phases in that order — and the loop of
simulate emits exactly one such block per generation, in generation order,
with nothing skipped, repeated, or reordered. -/
theorem simulate_generation_phase_order {W : Type} (E : SimEnv W) (wx wy wz : Nat)
    (pop : String) (maxGen : Int) (w : W) :
    (∀ (gen : Int) (u : W),
      (runGeneration E wx wy wz pop gen u).1 = genTrace wx wy wz pop gen) ∧
    (runGenerations E wx wy wz pop maxGen 0 w).1
      = (List.range (maxGen.toNat)).flatMap
          (fun i => genTrace wx wy wz pop (0 + 1 + (i : Int))) ∧
    ((allCells wx wy wz).Nodup ∧
      ∀ c : Nat × Nat × Nat, c ∈ allCells wx wy wz ↔
        c.1 < wx ∧ c.2.1 < wy ∧ c.2.2 < wz) :=
  ⟨fun gen u => runGeneration_fst E wx wy wz pop gen u,
   (runGenerations_spec E wx wy wz pop maxGen.toNat maxGen 0 (by omega) w).1,
   allCells_nodup wx wy wz, fun c => mem_allCells wx wy wz c⟩

theorem countP_flatMap {A B : Type} (p : B → Bool) (f : A → List B) :
    ∀ l : List A, (l.flatMap f).countP p = (l.map (fun a => (f a).countP p)).sum := by
  intro l
  induction l with
  | nil => rfl
  | cons a rest ih => simp [List.flatMap_cons, List.countP_append, ih]

theorem sum_map_one {A : Type} : ∀ l : List A, (l.map (fun _ => (1:Nat))).sum = l.length := by
  intro l
  induction l with
  | nil => rfl
  | cons a rest ih =>
    simp only [List.map_cons, List.sum_cons, ih, List.length_cons]
    omega

theorem countP_map_zero {A : Type} (p : Event → Bool) (f : A → Event)
    (h : ∀ a, p (f a) = false) :
    ∀ l : List A, (l.map f).countP p = 0 := by
  intro l
  induction l with
  | nil => rfl
  | cons a rest ih => simp [List.countP_cons, h, ih]

theorem countP_genTrace (wx wy wz : Nat) (pop : String) (gen : Int) (p : Event → Bool)
    (hup : ∀ c, p (Event.updateEcologyCall c) = false)
    (hlo : ∀ c, p (Event.updateLocalCall c) = false)
    (hre : ∀ c, p (Event.reportCall c) = false) :
    (genTrace wx wy wz pop gen).countP p
      = ([Event.ecoregulateCall, Event.interpretChromosomeCall pop,
          Event.reportGenerationCall pop gen, Event.organismMovementCall pop,
          Event.organismLocationCall pop, Event.buryWorldCall gen]).countP p := by
  simp only [genTrace, List.countP_cons, List.countP_append, List.countP_nil,
    countP_map_zero p Event.updateEcologyCall hup,
    countP_map_zero p Event.updateLocalCall hlo,
    countP_map_zero p Event.reportCall hre]
  omega

theorem countP_genTrace_ecoregulate (wx wy wz : Nat) (pop : String) (gen : Int) :
    (genTrace wx wy wz pop gen).countP isEcoregulateCall = 1 := by
  rw [countP_genTrace wx wy wz pop gen isEcoregulateCall
    (fun c => rfl) (fun c => rfl) (fun c => rfl)]
  rfl

theorem countP_genTrace_bury (wx wy wz : Nat) (pop : String) (gen : Int) :
    (genTrace wx wy wz pop gen).countP isBuryWorldCall = 1 := by
  rw [countP_genTrace wx wy wz pop gen isBuryWorldCall
    (fun c => rfl) (fun c => rfl) (fun c => rfl)]
  rfl

theorem countP_genTrace_worldCreated (wx wy wz : Nat) (pop : String) (gen : Int) :
    (genTrace wx wy wz pop gen).countP isWorldCreated = 0 := by
  rw [countP_genTrace wx wy wz pop gen isWorldCreated
    (fun c => rfl) (fun c => rfl) (fun c => rfl)]
  rfl

theorem runPopulation_countP_loop {W : Type} (E : SimEnv W) (wx wy wz : Nat) (N : Nat)
    (pop : String) (w : W) (p : Event → Bool)
    (hwp : ∀ s, p (Event.writeParameters s) = false)
    (hdp : ∀ s, p (Event.deployPop s) = false)
    (hcr : ∀ s, p (Event.closeResults s) = false)
    (hgen : ∀ gen : Int, (genTrace wx wy wz pop gen).countP p = 1) :
    (runPopulation E wx wy wz (N : Int) pop w).1.countP p = N := by
  have hts := runGenerations_spec E wx wy wz pop N (N : Int) 0 (by omega) (E.deploy pop w)
  simp only [runPopulation, List.countP_cons, List.countP_append, List.countP_nil,
    hwp, hdp, hcr, Bool.false_eq_true, if_false]
  rw [hts.1]
  rw [countP_flatMap p (fun i : Nat => genTrace wx wy wz pop (0 + 1 + (i : Int))) (List.range N)]
  have hmap : (List.range N).map
      (fun a : Nat => (genTrace wx wy wz pop (0 + 1 + (a : Int))).countP p)
      = (List.range N).map (fun _ : Nat => (1:Nat)) :=
    List.map_congr_left (fun i _ => hgen (0 + 1 + (i : Int)))
  rw [hmap, sum_map_one, List.length_range]
  omega

/-- C2: for every configuration with maximum_generations = N (with N ≥ 0
captured by N ranging over the naturals), the generation loop of simulate
runs exactly N iterations for a population: the per-population trace contains
exactly N ecoregulate calls and exactly N bury_world calls, and the
generation counter finishes at exactly N. The counts hold for every hook
environment E, so no hook behavior can cut the loop short: there is no early
exit and a run always executes the full configured generation count. -/
theorem simulate_generation_loop_count {W : Type} (E : SimEnv W) (wx wy wz : Nat)
    (pop : String) (N : Nat) (w : W) :
    (runPopulation E wx wy wz (N : Int) pop w).1.countP isEcoregulateCall = N ∧
    (runPopulation E wx wy wz (N : Int) pop w).1.countP isBuryWorldCall = N ∧
    (runGenerations E wx wy wz pop (N : Int) 0 (E.deploy pop w)).2.1 = N :=
  ⟨runPopulation_countP_loop E wx wy wz N pop w isEcoregulateCall
      (fun _ => rfl) (fun _ => rfl) (fun _ => rfl)
      (fun gen => countP_genTrace_ecoregulate wx wy wz pop gen),
   runPopulation_countP_loop E wx wy wz N pop w isBuryWorldCall
      (fun _ => rfl) (fun _ => rfl) (fun _ => rfl)
      (fun gen => countP_genTrace_bury wx wy wz pop gen),
   (runGenerations_spec E wx wy wz pop N (N : Int) 0 (by omega)
      (E.deploy pop w)).2 (by omega)⟩

theorem runPopulations_countP_worldCreated {W : Type} (E : SimEnv W) (wx wy wz : Nat)
    (maxGen : Int) :
    ∀ (ps : List String) (w : W),
      (runPopulations E wx wy wz maxGen ps w).1.countP isWorldCreated = 0 := by
  intro ps
  induction ps with
  | nil => intro w; rfl
  | cons p rest ih =>
    intro w
    have hts := runGenerations_spec E wx wy wz p maxGen.toNat maxGen 0 (by omega)
      (E.deploy p w)
    simp only [runPopulations, runPopulation, List.countP_append, List.countP_cons,
      List.countP_nil, ih]
    rw [hts.1]
    rw [countP_flatMap isWorldCreated (fun i : Nat => genTrace wx wy wz p (0 + 1 + (i : Int)))
      (List.range maxGen.toNat)]
    have hmap : (List.range maxGen.toNat).map
        (fun a : Nat => (genTrace wx wy wz p (0 + 1 + (a : Int))).countP isWorldCreated)
        = (List.range maxGen.toNat).map (fun _ : Nat => (0:Nat)) :=
      List.map_congr_left (fun i _ => countP_genTrace_worldCreated wx wy wz p (0 + 1 + (i : Int)))
    rw [hmap]
    have hz : ∀ l : List Nat, (l.map (fun _ => (0:Nat))).sum = 0 := by
      intro l
      induction l with
      | nil => rfl
      | cons a r ih2 => simp [ih2]
    rw [hz]
    rfl

theorem runPopulations_snd {W : Type} (E : SimEnv W) (wx wy wz : Nat) (maxGen : Int) :
    ∀ (ps : List String) (w : W),
      (runPopulations E wx wy wz maxGen ps w).2
        = ps.foldl (fun u p => (runPopulation E wx wy wz maxGen p u).2) w := by
  intro ps
  induction ps with
  | nil => intro w; rfl
  | cons p rest ih =>
    intro w
    simp only [runPopulations, List.foldl_cons, ih]

/-- C8: a single World is created exactly once per run (the trace of simulate
holds exactly one world construction event, as its very first event, before
any population is processed, and no population processing ever emits one),
and the same world state is shared across all populations: the final world is
the sequential fold of the per-population processing over the one initial
world, so each population starts from exactly the state the previous
population left behind, with no reset or rebuild between populations. -/
theorem simulate_single_world {W : Type} (E : SimEnv W) (cwd simName utcStr : String)
    (fs : List String) (wx wy wz : Nat) (maxGen : Int) (pops : List String) :
    (simulate E cwd simName utcStr fs wx wy wz maxGen pops).1.countP isWorldCreated = 1 ∧
    (simulate E cwd simName utcStr fs wx wy wz maxGen pops).1.head?
      = some (Event.worldCreated wx wy wz) ∧
    (∀ (ps : List String) (w : W),
      (runPopulations E wx wy wz maxGen ps w).1.countP isWorldCreated = 0) ∧
    (simulate E cwd simName utcStr fs wx wy wz maxGen pops).2
      = pops.foldl (fun u p => (runPopulation E wx wy wz maxGen p u).2)
          (E.mkWorld wx wy wz) ∧
    (∀ (p : String) (ps : List String) (w : W),
      (runPopulations E wx wy wz maxGen (p :: ps) w).2
        = (runPopulations E wx wy wz maxGen ps
            (runPopulation E wx wy wz maxGen p w).2).2) := by
  refine ⟨?_, ?_, runPopulations_countP_worldCreated E wx wy wz maxGen, ?_, ?_⟩
  · simp only [simulate, List.countP_cons, List.countP_append,
      runPopulations_countP_worldCreated E wx wy wz maxGen]
    by_cases hin : fs.contains (directoryOf cwd simName utcStr)
    · simp [hin, isWorldCreated]
    · simp [hin, isWorldCreated]
  · rfl
  · simp only [simulate]
    exact runPopulations_snd E wx wy wz maxGen pops (E.mkWorld wx wy wz)
  · intro p ps w
    rfl

theorem runPopulations_nil_gen {W : Type} (E : SimEnv W) (wx wy wz : Nat)
    (maxGen : Int) (hneg : maxGen ≤ 0) :
    ∀ (ps : List String) (w : W),
      (runPopulations E wx wy wz maxGen ps w).1
        = ps.flatMap (fun p =>
            [Event.writeParameters p, Event.deployPop p, Event.closeResults p]) := by
  intro ps
  induction ps with
  | nil => intro w; rfl
  | cons p rest ih =>
    intro w
    have hnot : ¬ (0 : Int) < maxGen := by omega
    simp only [runPopulations, runPopulation, List.flatMap_cons, ih]
    rw [runGenerations, if_neg hnot]
    rfl

/-- C10: with maximum_generations ≤ 0 the run still creates the run directory
(when it is absent), spawns the populations and activates the interpreter
version, and performs write_parameters, deploy and close_results once per
population in that order, but the generation loop body never executes: the
trace is exactly the setup events followed by those three per-population
events, and it contains not a single generation phase event — no ecoregulate,
update_ecology, update_local, interpret_chromosome, report_generation,
organism_movement, organism_location, report or bury_world call. -/
theorem simulate_nonpositive_generations {W : Type} (E : SimEnv W)
    (cwd simName utcStr : String) (fs : List String) (wx wy wz : Nat)
    (maxGen : Int) (pops : List String) (hneg : maxGen ≤ 0)
    (hdir : fs.contains (directoryOf cwd simName utcStr) = false) :
    (simulate E cwd simName utcStr fs wx wy wz maxGen pops).1
      = Event.worldCreated wx wy wz :: Event.makedirs (directoryOf cwd simName utcStr)
        :: Event.spawnPopulations :: Event.activateVersion
        :: pops.flatMap (fun p =>
            [Event.writeParameters p, Event.deployPop p, Event.closeResults p]) ∧
    (simulate E cwd simName utcStr fs wx wy wz maxGen pops).1.countP isGenPhaseEvent
      = 0 := by
  have htr : (simulate E cwd simName utcStr fs wx wy wz maxGen pops).1
      = Event.worldCreated wx wy wz :: Event.makedirs (directoryOf cwd simName utcStr)
        :: Event.spawnPopulations :: Event.activateVersion
        :: pops.flatMap (fun p =>
            [Event.writeParameters p, Event.deployPop p, Event.closeResults p]) := by
    simp only [simulate, hdir, Bool.false_eq_true, if_false,
      runPopulations_nil_gen E wx wy wz maxGen hneg pops]
    rfl
  refine ⟨htr, ?_⟩
  rw [htr, List.countP_eq_zero]
  intro e he
  simp only [List.mem_cons, List.mem_flatMap] at he
  rcases he with rfl | rfl | rfl | rfl | ⟨s, hs, he⟩
  · simp [isGenPhaseEvent]
  · simp [isGenPhaseEvent]
  · simp [isGenPhaseEvent]
  · simp [isGenPhaseEvent]
  · simp only [List.mem_cons, List.not_mem_nil, or_false] at he
    rcases he with rfl | rfl | rfl <;> simp [isGenPhaseEvent]

theorem simulate_nonpositive_generations_witness :
    (simulate (⟨fun _ _ _ => (), fun _ _ => (), fun _ => (), fun _ _ => (), fun _ _ => (),
        fun _ _ => (), fun _ _ => (), fun _ _ => (), fun _ _ => (), fun _ _ => ()⟩
        : SimEnv Unit)
      "C:" "sim" "2013-09-27 00:00:00.000000" [] 1 1 1 (-2) ["pop_01"]).1
      = [Event.worldCreated 1 1 1,
         Event.makedirs (directoryOf "C:" "sim" "2013-09-27 00:00:00.000000"),
         Event.spawnPopulations, Event.activateVersion,
         Event.writeParameters "pop_01", Event.deployPop "pop_01",
         Event.closeResults "pop_01"] := by
  have h := simulate_nonpositive_generations
    (⟨fun _ _ _ => (), fun _ _ => (), fun _ => (), fun _ _ => (), fun _ _ => (),
        fun _ _ => (), fun _ _ => (), fun _ _ => (), fun _ _ => (), fun _ _ => ()⟩
        : SimEnv Unit)
    "C:" "sim" "2013-09-27 00:00:00.000000" [] 1 1 1 (-2) ["pop_01"]
    (by norm_num) rfl
  rw [h.1]
  rfl

/-- C7 counterexample: the claim states the run directory is derived as
cwd/Simulations/name_YYYY-MM-DD/ with forward-slash separators; at a concrete
working directory, simulation name and UTC start timestamp, the format string
of the code produces literal backslash separators instead, so the claimed
forward-slash path is not the derived directory. -/
theorem directoryOf_backslash_counterexample :
    directoryOf "C:" "sim" "2013-09-27 14:30:00.000000"
        = "C:\\Simulations\\sim_2013-09-27\\" ∧
    directoryOf "C:" "sim" "2013-09-27 14:30:00.000000"
        ≠ "C:/Simulations/sim_2013-09-27/" := by
  constructor
  · rfl
  · decide

theorem dateStamp_of_utc (d t : String) (hlen : d.length = 10)
    (hsp : ∀ c ∈ d.data, c ≠ ' ') :
    dateStamp (d ++ " " ++ t) = d := by
  have hmap : d.data.map (fun c => if c = ' ' then '/' else c) = d.data := by
    conv_rhs => rw [← List.map_id d.data]
    apply List.map_congr_left
    intro c hc
    simp [hsp c hc]
  have hdata : (d ++ " " ++ t).data = d.data ++ ' ' :: t.data := by
    simp [String.data_append]
  unfold dateStamp strTake timeStart
  rw [hdata, List.map_append, hmap, List.map_cons]
  simp only [if_pos rfl]
  have hdlen : d.data.length = 10 := hlen
  rw [List.take_left' hdlen]

/-- C7 amended: at setup, simulate derives the run directory string as
cwd\Simulations\simulation_name_YYYY-MM-DD\ — the separators are literal
backslash characters, not the forward slashes of the claim — with the date
being the first ten characters of the UTC start timestamp, and creates the
directory only when it does not already exist: creation into a filesystem
lacking the directory adds exactly it, a pre-existing directory is left
untouched and is not an error, and running setup twice on the same day with
the same simulation name is idempotent with respect to directory creation. -/
theorem directory_setup_spec (cwd simName d t : String) (fs : List String)
    (hlen : d.length = 10) (hsp : ∀ c ∈ d.data, c ≠ ' ') :
    (directoryOf cwd simName (d ++ " " ++ t)
      = cwd ++ "\\Simulations\\" ++ simName ++ "_" ++ d ++ "\\") ∧
    (fs.contains (directoryOf cwd simName (d ++ " " ++ t)) = false →
      makedirsIfAbsent fs (directoryOf cwd simName (d ++ " " ++ t))
        = directoryOf cwd simName (d ++ " " ++ t) :: fs) ∧
    (fs.contains (directoryOf cwd simName (d ++ " " ++ t)) = true →
      makedirsIfAbsent fs (directoryOf cwd simName (d ++ " " ++ t)) = fs) ∧
    (makedirsIfAbsent (makedirsIfAbsent fs (directoryOf cwd simName (d ++ " " ++ t)))
        (directoryOf cwd simName (d ++ " " ++ t))
      = makedirsIfAbsent fs (directoryOf cwd simName (d ++ " " ++ t))) := by
  refine ⟨?_, ?_, ?_, ?_⟩
  · unfold directoryOf
    rw [dateStamp_of_utc d t hlen hsp]
  · intro h
    unfold makedirsIfAbsent
    rw [if_neg (by rw [h]; simp)]
  · intro h
    unfold makedirsIfAbsent
    rw [if_pos h]
  · unfold makedirsIfAbsent
    by_cases h : fs.contains (directoryOf cwd simName (d ++ " " ++ t)) = true
    · rw [if_pos h, if_pos h]
    · rw [if_neg h, if_pos (by simp [List.contains_cons])]

theorem directory_setup_spec_witness :
    (directoryOf "C:" "demo" ("2013-09-27" ++ " " ++ "14:30:00.000000")
      = "C:" ++ "\\Simulations\\" ++ "demo" ++ "_" ++ "2013-09-27" ++ "\\") ∧
    (makedirsIfAbsent []
        (directoryOf "C:" "demo" ("2013-09-27" ++ " " ++ "14:30:00.000000"))
      = [directoryOf "C:" "demo" ("2013-09-27" ++ " " ++ "14:30:00.000000")]) := by
  have h := directory_setup_spec "C:" "demo" "2013-09-27" "14:30:00.000000" []
    (by rfl) (by decide)
  exact ⟨h.1, h.2.1 rfl⟩

theorem lookup_dictUpdate (upd : List (String × ParamVal)) (k : String) :
    ∀ d : List (String × ParamVal),
      (dictUpdate d upd).lookup k = (upd.lookup k).or (d.lookup k) := by
  intro d
  induction d with
  | nil =>
    simp only [dictUpdate, List.filter_nil, List.nil_append, List.lookup]
    cases upd.lookup k <;> rfl
  | cons p rest ih =>
    simp only [dictUpdate, List.filter_cons] at ih ⊢
    by_cases hf : (upd.lookup p.1).isNone = true
    · rw [if_pos hf]
      rcases p with ⟨k0, v0⟩
      by_cases hk : k == k0
      · have hkeq : k = k0 := by simpa using hk
        subst hkeq
        have hnone : upd.lookup k = none := by
          simp only [Option.isNone_iff_eq_none] at hf
          exact hf
        simp [List.lookup, hnone]
      · simp only [List.cons_append, List.lookup, hk, List.append_eq]
        rw [ih]
    · rw [if_neg hf]
      rcases p with ⟨k0, v0⟩
      by_cases hk : k == k0
      · have hkeq : k = k0 := by simpa using hk
        subst hkeq
        obtain ⟨w, hw⟩ : ∃ w, upd.lookup k = some w := by
          cases hu : upd.lookup k with
          | some w => exact ⟨w, rfl⟩
          | none => rw [hu] at hf; simp at hf
        rw [ih, hw]
        simp [List.lookup]
      · simp only [List.lookup, hk, List.append_eq]
        rw [ih]

theorem lookup_derivedParams_none (cs : Nat) (t dir k : String)
    (h1 : k ≠ "initial_chromosome") (h2 : k ≠ "deployment_scheme")
    (h3 : k ≠ "starting_time") (h4 : k ≠ "directory") :
    (derivedParams cs t dir).lookup k = none := by
  have e1 : (k == "initial_chromosome") = false := by simpa using h1
  have e2 : (k == "deployment_scheme") = false := by simpa using h2
  have e3 : (k == "starting_time") = false := by simpa using h3
  have e4 : (k == "directory") = false := by simpa using h4
  simp [derivedParams, List.lookup, e1, e2, e3, e4]

/-- C9: simulate mutates the caller-supplied sim_parameters dictionary in
place: provided the caller supplied none of the four derived keys, the
updated dictionary binds initial_chromosome to chromosome_size copies of the
one-character string 0, deployment_scheme to the deployment_scheme method of
the hook object, and starting_time and directory to the derived strings —
these are exactly the additional keys: every key the caller originally
supplied keeps its original value, and a key that was absent and is not one
of the four stays absent. -/
theorem setup_params_spec (sp : List (String × ParamVal)) (cs : Nat) (t dir : String)
    (habs : ∀ key ∈ (["initial_chromosome", "deployment_scheme", "starting_time",
      "directory"] : List String), sp.lookup key = none) :
    ((setupParams sp cs t dir).lookup "initial_chromosome"
        = some (ParamVal.strList (List.replicate cs "0"))) ∧
    ((setupParams sp cs t dir).lookup "deployment_scheme"
        = some (ParamVal.hook "deployment_scheme")) ∧
    ((setupParams sp cs t dir).lookup "starting_time" = some (ParamVal.str t)) ∧
    ((setupParams sp cs t dir).lookup "directory" = some (ParamVal.str dir)) ∧
    (∀ (k : String) (v : ParamVal), sp.lookup k = some v →
      (setupParams sp cs t dir).lookup k = some v) ∧
    (∀ k : String, sp.lookup k = none →
      k ∉ (["initial_chromosome", "deployment_scheme", "starting_time",
        "directory"] : List String) →
      (setupParams sp cs t dir).lookup k = none) := by
  refine ⟨?_, ?_, ?_, ?_, ?_, ?_⟩
  · rw [setupParams, lookup_dictUpdate]
    rfl
  · rw [setupParams, lookup_dictUpdate]
    rfl
  · rw [setupParams, lookup_dictUpdate]
    rfl
  · rw [setupParams, lookup_dictUpdate]
    rfl
  · intro k v hkv
    have hk1 : k ≠ "initial_chromosome" := by
      rintro rfl
      rw [habs _ (by simp)] at hkv
      cases hkv
    have hk2 : k ≠ "deployment_scheme" := by
      rintro rfl
      rw [habs _ (by simp)] at hkv
      cases hkv
    have hk3 : k ≠ "starting_time" := by
      rintro rfl
      rw [habs _ (by simp)] at hkv
      cases hkv
    have hk4 : k ≠ "directory" := by
      rintro rfl
      rw [habs _ (by simp)] at hkv
      cases hkv
    rw [setupParams, lookup_dictUpdate,
      lookup_derivedParams_none cs t dir k hk1 hk2 hk3 hk4, hkv]
    rfl
  · intro k hnone hmem
    simp only [List.mem_cons, List.not_mem_nil, or_false, not_or] at hmem
    obtain ⟨hk1, hk2, hk3, hk4⟩ := hmem
    rw [setupParams, lookup_dictUpdate,
      lookup_derivedParams_none cs t dir k hk1 hk2 hk3 hk4, hnone]
    rfl

theorem setup_params_spec_witness :
    ((setupParams [("world_x", ParamVal.int 5)] 3 "2013-09-27/14:30:00.000000"
        "C:\\Simulations\\demo_2013-09-27\\").lookup "initial_chromosome"
      = some (ParamVal.strList ["0", "0", "0"])) ∧
    ((setupParams [("world_x", ParamVal.int 5)] 3 "2013-09-27/14:30:00.000000"
        "C:\\Simulations\\demo_2013-09-27\\").lookup "world_x"
      = some (ParamVal.int 5)) := by
  have h := setup_params_spec [("world_x", ParamVal.int 5)] 3 "2013-09-27/14:30:00.000000"
    "C:\\Simulations\\demo_2013-09-27\\"
    (by
      intro key hk
      simp only [List.mem_cons, List.not_mem_nil, or_false] at hk
      rcases hk with rfl | rfl | rfl | rfl <;> rfl)
  exact ⟨h.1, h.2.2.2.2.1 "world_x" (ParamVal.int 5) rfl⟩

end Dose
